import Mathlib

/-!
# Shallow embedding of the `logic-sim` circuit evaluation engine

This file embeds the core of `src/main.rs` of the `logic-sim` repository:
the gate catalog (`And`, `And3`, `Or`, `Xor`, `Not`), the `Simulation`
struct (`counter`, `gates`, `connections`), its operations `add_gate`,
`add_connection`, `get_gate_state`, `get_gate_name` and `simulate` (the
tick), and the clock-to-tick conversion performed by the frame loop in
`main`.

Modelling choices:
* The Rust `HashMap<usize, GateState>` is modelled as an association list
  `List (Nat × GateState)`.  `HashMap` iteration order is unspecified in
  Rust; the association-list order is the representative order, and
  order-independence of the evaluate phase is proved separately
  (`evalGatesInOrder`).
* Rust panics (`unwrap()` on a missing key, out-of-bounds slice indexing,
  the `try_into().unwrap()` inside the boxed update closure) are modelled
  as `none` of an `Option` result.
* The boxed `update_fn` closure stored per gate always wraps the `update`
  method of the gate value passed to `add_gate`, so it is represented by
  the `GateKind` tag together with the dispatch function `GateKind.update`.
-/

/-- The closed catalog of gate kinds of `src/main.rs`
(`struct And / And3 / Or / Xor / Not` with their `Gate<I, O>` impls). -/
inductive GateKind : Type where
  | AND : GateKind
  | AND3 : GateKind
  | OR : GateKind
  | XOR : GateKind
  | NOT : GateKind
deriving DecidableEq

/-- The `INPUTS` const-generic parameter of each `Gate<INPUTS, OUTPUTS>` impl. -/
def GateKind.inputArity : GateKind → Nat
  | .AND => 2
  | .AND3 => 3
  | .OR => 2
  | .XOR => 2
  | .NOT => 1

/-- The `OUTPUTS` const-generic parameter of each `Gate<INPUTS, OUTPUTS>` impl. -/
def GateKind.outputArity : GateKind → Nat
  | .AND => 1
  | .AND3 => 1
  | .OR => 1
  | .XOR => 1
  | .NOT => 1

/-- The `NAME` associated const of each gate impl. -/
def GateKind.gateName : GateKind → String
  | .AND => "AND"
  | .AND3 => "AND3"
  | .OR => "OR"
  | .XOR => "XOR"
  | .NOT => "NOT"

/-- The boxed update closure built in `add_gate`:
`|inputs, outputs| gate.update(inputs.try_into().unwrap(), outputs.try_into().unwrap())`.
The `try_into().unwrap()` calls panic (`none`) unless the input and output
slices have exactly the arity of the gate kind; on success each `update`
impl assigns `outputs[0]` from the inputs. -/
def GateKind.update : GateKind → List Bool → List Bool → Option (List Bool)
  | .AND, [a, b], [_] => some [a && b]
  | .AND3, [a, b, c], [_] => some [a && b && c]
  | .OR, [a, b], [_] => some [a || b]
  | .XOR, [a, b], [_] => some [a != b]
  | .NOT, [a], [_] => some [!a]
  | _, _, _ => none

/-- The `struct GateState` of `src/main.rs`: the `inputs` and `outputs` boxed
slices, the update closure (represented by its `GateKind`, see
`GateKind.update`) and the `name` static string. -/
structure GateState : Type where
  inputs : List Bool
  outputs : List Bool
  kind : GateKind
  name : String
deriving DecidableEq

/-- Method `GateState::update`: `(self.update_fn)(&self.inputs, &mut self.outputs)`;
`none` models the panic inside the closure when a buffer length does not
match the gate arity. -/
def GateState.update (g : GateState) : Option GateState :=
  (g.kind.update g.inputs g.outputs).map fun os => { g with outputs := os }

/-- A connection `(from, output, to, input)` as stored in
`Simulation::connections : Vec<(usize, usize, usize, usize)>`. -/
abbrev Conn := Nat × Nat × Nat × Nat

/-- The association-list model of `HashMap<usize, GateState>`. -/
abbrev GateMap := List (Nat × GateState)

/-- The model of `HashMap::get`: first entry with the given key, if any. -/
def lookupGate : GateMap → Nat → Option GateState
  | [], _ => none
  | e :: rest, id => if e.1 = id then some e.2 else lookupGate rest id

/-- Overwrite the (first) entry with the given key, leaving the map
unchanged when the key is absent.  Together with `insertGate` this models
`HashMap::get_mut` assignment and `HashMap::insert`. -/
def setGate : GateMap → Nat → GateState → GateMap
  | [], _, _ => []
  | e :: rest, id, v =>
      if e.1 = id then (e.1, v) :: rest else e :: setGate rest id v

/-- The model of `HashMap::insert`: replace the value when the key is present,
otherwise add a new entry. -/
def insertGate (m : GateMap) (id : Nat) (v : GateState) : GateMap :=
  if (lookupGate m id).isSome then setGate m id v else m ++ [(id, v)]

/-- The `struct Simulation` of `src/main.rs`. -/
structure Simulation : Type where
  counter : Nat
  gates : GateMap
  connections : List Conn
deriving DecidableEq

/-- Constructor `Simulation::new`. -/
def Simulation.new : Simulation :=
  { counter := 0, gates := [], connections := [] }

/-- Method `Simulation::add_gate`: all-false buffers sized by the const-generic
arities, id taken from `counter`, then `counter += 1`. -/
def Simulation.add_gate (s : Simulation) (k : GateKind) : Simulation :=
  { counter := s.counter + 1
    gates := insertGate s.gates s.counter
      { inputs := List.replicate k.inputArity false
        outputs := List.replicate k.outputArity false
        kind := k
        name := k.gateName }
    connections := s.connections }

/-- Method `Simulation::add_connection`: unconditionally
`self.connections.push((from, output, to, input))`. -/
def Simulation.add_connection (s : Simulation) (frm outSlot dst inSlot : Nat) :
    Simulation :=
  { s with connections := s.connections ++ [(frm, outSlot, dst, inSlot)] }

/-- Method `Simulation::get_gate_state`: `self.gates.get(&id).unwrap()`; `none`
models the panic of `unwrap()` when `id` is not in the map. -/
def Simulation.get_gate_state (s : Simulation) (id : Nat) :
    Option (List Bool × List Bool) :=
  (lookupGate s.gates id).map fun g => (g.inputs, g.outputs)

/-- Method `Simulation::get_gate_name`: `self.gates.get(&id).unwrap().name`; `none`
models the panic of `unwrap()` when `id` is not in the map. -/
def Simulation.get_gate_name (s : Simulation) (id : Nat) : Option String :=
  (lookupGate s.gates id).map fun g => g.name

/-- One iteration of the propagate loop of `Simulation::simulate`:
`let output_state = self.gates.get(from).unwrap().outputs[*output];`
`self.gates.get_mut(to).unwrap().inputs[*input] = output_state;`.
`none` models the `unwrap()` panics on missing ids and the panics of
out-of-bounds slice indexing. -/
def propagateOne (m : GateMap) (c : Conn) : Option GateMap :=
  match lookupGate m c.1 with
  | none => none
  | some gFrom =>
    match gFrom.outputs.get? c.2.1 with
    | none => none
    | some v =>
      match lookupGate m c.2.2.1 with
      | none => none
      | some gTo =>
        if c.2.2.2 < gTo.inputs.length then
          some (setGate m c.2.2.1 { gTo with inputs := gTo.inputs.set c.2.2.2 v })
        else none

/-- The whole propagate phase: the `for (from, output, to, input) in
&self.connections` loop, in the declared order of the connection vector. -/
def propagate (m : GateMap) : List Conn → Option GateMap
  | [] => some m
  | c :: cs =>
    match propagateOne m c with
    | none => none
    | some m2 => propagate m2 cs

/-- The evaluate phase: `for (_, state) in &mut self.gates { state.update(); }`,
each gate updated in place from its own buffers only. -/
def evalGates : GateMap → Option GateMap
  | [] => some []
  | e :: rest =>
    match e.2.update with
    | none => none
    | some g =>
      match evalGates rest with
      | none => none
      | some rest2 => some ((e.1, g) :: rest2)

/-- Method `Simulation::simulate`: the propagate phase over the connection vector,
then the evaluate phase over the gate map. -/
def Simulation.simulate (s : Simulation) : Option Simulation :=
  match propagate s.gates s.connections with
  | none => none
  | some m =>
    match evalGates m with
    | none => none
    | some m2 => some { s with gates := m2 }

/-- Runs `n` consecutive calls of `Simulation::simulate`. -/
def tickN (s : Simulation) : Nat → Option Simulation
  | 0 => some s
  | n + 1 => (tickN s n).bind Simulation.simulate

/-- One in-place update of the gate stored under `id`, as one iteration of
the evaluate loop performs it. -/
def evalStep (m : GateMap) (id : Nat) : Option GateMap :=
  match lookupGate m id with
  | none => none
  | some g => (g.update).map fun g2 => setGate m id g2

/-- The evaluate phase executed in an arbitrary iteration order of gate ids
(Rust's `HashMap` iteration order is unspecified): each listed id has its
gate updated in place. -/
def evalGatesInOrder (m : GateMap) : List Nat → Option GateMap
  | [] => some m
  | id :: rest => (evalStep m id).bind fun m2 => evalGatesInOrder m2 rest

/-- The keys of the gate map. -/
def gateKeys (m : GateMap) : List Nat := m.map Prod.fst

/-- Simulation states reachable through the public operations. -/
inductive Reachable : Simulation → Prop where
  | new : Reachable Simulation.new
  | add_gate {s : Simulation} (k : GateKind) :
      Reachable s → Reachable (s.add_gate k)
  | add_connection {s : Simulation} (frm outSlot dst inSlot : Nat) :
      Reachable s → Reachable (s.add_connection frm outSlot dst inSlot)
  | tick {s s2 : Simulation} :
      Reachable s → s.simulate = some s2 → Reachable s2

/-- Well-formedness of a gate map: buffer lengths match the arities of the
stored kind, the `name` field is the kind's `NAME`, and keys are distinct
and below the given counter. -/
def GateMapWF (m : GateMap) (counter : Nat) : Prop :=
  (∀ e ∈ m, e.2.inputs.length = e.2.kind.inputArity ∧
      e.2.outputs.length = e.2.kind.outputArity ∧
      e.2.name = e.2.kind.gateName ∧ e.1 < counter) ∧
  (gateKeys m).Nodup

/-- A connection is valid for a gate map: both endpoints are registered and
both slot indices are within the endpoint arity. -/
def connValid (m : GateMap) (c : Conn) : Prop :=
  (∃ g, lookupGate m c.1 = some g ∧ c.2.1 < g.outputs.length) ∧
  (∃ g, lookupGate m c.2.2.1 = some g ∧ c.2.2.2 < g.inputs.length)

/-- Well-formedness of a whole simulation state. -/
def SimWF (s : Simulation) : Prop := GateMapWF s.gates s.counter

/-- The value on output slot `slot` of gate `id`, if the gate exists and
the slot is in range. -/
def optOutput (m : GateMap) (id slot : Nat) : Option Bool :=
  (lookupGate m id).bind fun g => g.outputs.get? slot

/-- The value on input slot `slot` of gate `id`, if the gate exists and
the slot is in range. -/
def optInput (m : GateMap) (id slot : Nat) : Option Bool :=
  (lookupGate m id).bind fun g => g.inputs.get? slot

/-- A single `Not` gate wired back onto itself:
`add_gate(Not)` then `add_connection(0, 0, 0, 0)`. -/
def notLoop : Simulation :=
  (Simulation.new.add_gate .NOT).add_connection 0 0 0 0

/-- The NOT-loop state one tick after registration: output driven to `true`. -/
def notLoopOdd : Simulation :=
  { counter := 1
    gates := [(0, ⟨[false], [true], .NOT, "NOT"⟩)]
    connections := [(0, 0, 0, 0)] }

/-- The NOT-loop state two ticks after registration: output back to `false`,
but the input buffer now holds `true`. -/
def notLoopEven : Simulation :=
  { counter := 1
    gates := [(0, ⟨[true], [false], .NOT, "NOT"⟩)]
    connections := [(0, 0, 0, 0)] }

/-- A linear chain of three `Not` gates (ids 0, 1, 2) wired 0→1→2, in its
settled state: ticking it reproduces it exactly (proved below). -/
def chainSettled : Simulation :=
  { counter := 3
    gates := [(0, ⟨[false], [true], .NOT, "NOT"⟩),
              (1, ⟨[true], [false], .NOT, "NOT"⟩),
              (2, ⟨[false], [true], .NOT, "NOT"⟩)]
    connections := [(0, 0, 1, 0), (1, 0, 2, 0)] }

/-- The settled chain with a change driven directly into gate 0's input
(its input slot flipped from `false` to `true`); everything else as in
`chainSettled`. -/
def chainDriven : Simulation :=
  { chainSettled with
    gates := [(0, ⟨[true], [true], .NOT, "NOT"⟩),
              (1, ⟨[true], [false], .NOT, "NOT"⟩),
              (2, ⟨[false], [true], .NOT, "NOT"⟩)] }

/-- The tick-invariant shape of a stored gate: input-buffer length, the
whole output buffer, the kind (update function) and the name. -/
def gshape (g : GateState) : Nat × List Bool × GateKind × String :=
  (g.inputs.length, g.outputs, g.kind, g.name)

/-- Two registered NOT gates with distinct buffer contents, used as the
concrete instance for the determinism witness. -/
def twoNots : GateMap :=
  [(0, ⟨[false], [true], .NOT, "NOT"⟩), (1, ⟨[true], [false], .NOT, "NOT"⟩)]

/-- The tick period computed in `main`: `let period = (1.0 / frequency) as f64`.
The `f32`/`f64` arithmetic of the frame loop is modelled by exact
rationals. -/
def tickPeriod (frequency : ℚ) : ℚ := 1 / frequency

/-- One frame of the clock-to-tick conversion in `main`:
`iterations = elapsed / period + elapsed_remainder`; when
`iterations >= 1.0` the loop runs `simulate()` exactly
`iterations.trunc() as usize` times, stores `iterations.fract()` in
`elapsed_remainder` and advances `last_update` (third component `true`);
otherwise no tick runs, the remainder is left unchanged and `last_update`
is not advanced, so the elapsed time keeps accumulating (third component
`false`).  For the nonnegative `iterations` of the `>= 1` branch,
`trunc`/`fract` coincide with floor and fractional part. -/
def frameTicks (elapsed period remainder : ℚ) : Nat × ℚ × Bool :=
  if 1 ≤ elapsed / period + remainder then
    ((⌊elapsed / period + remainder⌋).toNat,
      elapsed / period + remainder - ⌊elapsed / period + remainder⌋, true)
  else (0, remainder, false)

/-- C1 (`functional_correctness`): for every gate kind and every assignment
of booleans to its input buffer (with any stale contents of its one output
slot), one evaluate step produces exactly the declared rule — AND gives
`in0 && in1`, AND3 gives `in0 && in1 && in2`, OR gives `in0 || in1`, XOR
gives `xor in0 in1`, NOT gives `!in0`.  The right-hand sides mention only
the inputs, so evaluation is a pure function of the inputs. -/
theorem gateKind_update_rules (a b c x : Bool) :
    GateKind.AND.update [a, b] [x] = some [a && b] ∧
    GateKind.AND3.update [a, b, c] [x] = some [a && b && c] ∧
    GateKind.OR.update [a, b] [x] = some [a || b] ∧
    GateKind.XOR.update [a, b] [x] = some [Bool.xor a b] ∧
    GateKind.NOT.update [a] [x] = some [!a] := by
  refine ⟨rfl, rfl, rfl, ?_, rfl⟩
  cases a <;> cases b <;> rfl

/-- C4 counterexample: gate id 0 is not registered in a fresh simulation,
yet `add_connection 0 0 0 0` does not fail and does not leave the
connection table unchanged — it appends the invalid wire. -/
theorem add_connection_invalid_not_rejected :
    lookupGate Simulation.new.gates 0 = none ∧
    (Simulation.new.add_connection 0 0 0 0).connections ≠
      Simulation.new.connections := by decide

/-- C4 (amended): `add_connection` performs no validation at all — for
every arguments, valid or not, it unconditionally appends the wire to the
connection table, succeeds, and leaves the gate map and counter unchanged. -/
theorem add_connection_appends (s : Simulation) (frm outSlot dst inSlot : Nat) :
    (s.add_connection frm outSlot dst inSlot).connections =
      s.connections ++ [(frm, outSlot, dst, inSlot)] ∧
    (s.add_connection frm outSlot dst inSlot).gates = s.gates ∧
    (s.add_connection frm outSlot dst inSlot).counter = s.counter :=
  ⟨rfl, rfl, rfl⟩

/-- C5 counterexample: querying the never-registered id 0 in a fresh
simulation reaches the `unwrap()` of a missing map entry, i.e. a panic
(modelled as `none`) that aborts the caller — not a recoverable
`LookupError` value. -/
theorem get_state_unknown_id_panics :
    Simulation.new.get_gate_state 0 = none ∧
    Simulation.new.get_gate_name 0 = none := by decide

/-- C5 (amended): for every id not in the gate map, `get_gate_state` and
`get_gate_name` panic (`self.gates.get(&id).unwrap()`, modelled as `none`)
rather than returning a recoverable error; for every registered id they
succeed and return the gate's current buffers, respectively its name. -/
theorem get_state_name_spec (s : Simulation) (id : Nat) :
    (lookupGate s.gates id = none →
        s.get_gate_state id = none ∧ s.get_gate_name id = none) ∧
    (∀ g, lookupGate s.gates id = some g →
        s.get_gate_state id = some (g.inputs, g.outputs) ∧
        s.get_gate_name id = some g.name) := by
  constructor
  · intro h
    simp [Simulation.get_gate_state, Simulation.get_gate_name, h]
  · intro g h
    simp [Simulation.get_gate_state, Simulation.get_gate_name, h]

/-- C5 witness: the amended statement applied to the fresh simulation and
id 0 (unknown) and to the one-gate simulation and id 0 (registered). -/
theorem get_state_name_spec_witness :
    (Simulation.new.get_gate_state 0 = none ∧
      Simulation.new.get_gate_name 0 = none) ∧
    ((Simulation.new.add_gate .NOT).get_gate_state 0 = some ([false], [false]) ∧
      (Simulation.new.add_gate .NOT).get_gate_name 0 = some "NOT") :=
  ⟨(get_state_name_spec Simulation.new 0).1 rfl,
   (get_state_name_spec (Simulation.new.add_gate .NOT) 0).2
     ⟨[false], [false], .NOT, "NOT"⟩ rfl⟩

/-- C8 counterexample: in the NOT-loop started from the all-false
registration state, the state after the first two consecutive ticks does
not equal the state before them (the input buffer has changed from
`[false]` to `[true]`), refuting "the state after any two consecutive
ticks equals the state before them" for the initial state. -/
theorem notLoop_two_ticks_differs :
    tickN notLoop 2 ≠ some notLoop := by decide

/-- C8 (amended): the self-wired NOT gate oscillates — every tick
succeeds, the output is `true` after every odd-numbered tick and `false`
after every even-numbered tick (as after zero ticks), and the state is
periodic with period 2 from the first tick onward: for every n, the state
after ticks 2n+1 and 2n+2 are the fixed states `notLoopOdd` and
`notLoopEven`, so the state after any two consecutive ticks from tick 1 on
equals the state before them. -/
theorem notLoop_oscillates (n : Nat) :
    tickN notLoop 0 = some notLoop ∧
    notLoop.get_gate_state 0 = some ([false], [false]) ∧
    tickN notLoop (2 * n + 1) = some notLoopOdd ∧
    tickN notLoop (2 * n + 2) = some notLoopEven ∧
    notLoopOdd.get_gate_state 0 = some ([false], [true]) ∧
    notLoopEven.get_gate_state 0 = some ([true], [false]) := by
  refine ⟨rfl, by decide, ?_, ?_, by decide, by decide⟩ <;>
  · induction n with
    | zero => decide
    | succ k ih =>
      have h1 : 2 * (k + 1) + 1 = (2 * k + 1) + 1 + 1 := by ring
      have h2 : 2 * (k + 1) + 2 = (2 * k + 2) + 1 + 1 := by ring
      first
      | (rw [h1]
         show ((tickN notLoop (2 * k + 1)).bind Simulation.simulate).bind
            Simulation.simulate = some notLoopOdd
         rw [ih]
         decide)
      | (rw [h2]
         show ((tickN notLoop (2 * k + 2)).bind Simulation.simulate).bind
            Simulation.simulate = some notLoopEven
         rw [ih]
         decide)

/-- C2 counterexample: in the settled three-NOT chain 0→1→2 with a change
driven directly into gate 0's input, the output of gate 2 after exactly
2 ticks still equals its settled (pre-change) value `[true]` — the change
has not appeared at the end of the chain after 2 ticks. -/
theorem chain_two_ticks_no_change :
    chainSettled.simulate = some chainSettled ∧
    (chainSettled.get_gate_state 2).map Prod.snd = some [true] ∧
    ((tickN chainDriven 2).bind fun s => s.get_gate_state 2).map Prod.snd =
      some [true] := by decide

/-- C2 (amended): each tick first copies every connection's pre-tick
source output into the destination input and then re-evaluates every gate,
so in the settled linear chain of three NOT gates 0→1→2 a change driven
directly into gate 0's input costs one tick per gate evaluation: gate 2's
output still holds its settled value `[true]` after 1 and 2 ticks, and the
change first appears at gate 2's output after exactly 3 ticks. -/
theorem chain_change_after_three_ticks :
    chainSettled.simulate = some chainSettled ∧
    (chainSettled.get_gate_state 2).map Prod.snd = some [true] ∧
    ((tickN chainDriven 1).bind fun s => s.get_gate_state 2).map Prod.snd =
      some [true] ∧
    ((tickN chainDriven 2).bind fun s => s.get_gate_state 2).map Prod.snd =
      some [true] ∧
    ((tickN chainDriven 3).bind fun s => s.get_gate_state 2).map Prod.snd =
      some [false] := by decide

theorem lookupGate_setGate (m : GateMap) (k id : Nat) (v : GateState) :
    lookupGate (setGate m k v) id =
      if id = k then (lookupGate m k).map (fun _ => v) else lookupGate m id := by
  induction m with
  | nil => simp [setGate, lookupGate]
  | cons e rest ih =>
    by_cases h1 : e.1 = k <;> by_cases h2 : id = k <;>
      (try have hk : ¬ k = id := fun h => h2 h.symm) <;>
      simp_all [setGate, lookupGate]

theorem gateKeys_setGate (m : GateMap) (k : Nat) (v : GateState) :
    gateKeys (setGate m k v) = gateKeys m := by
  induction m with
  | nil => rfl
  | cons e rest ih =>
    by_cases h1 : e.1 = k <;> simp_all [setGate, gateKeys]

theorem lookupGate_append_left (m m2 : GateMap) (id : Nat) (g : GateState)
    (h : lookupGate m id = some g) : lookupGate (m ++ m2) id = some g := by
  induction m with
  | nil => simp [lookupGate] at h
  | cons e rest ih =>
    by_cases h1 : e.1 = id <;> simp_all [lookupGate]

theorem lookupGate_append_right (m m2 : GateMap) (id : Nat)
    (h : lookupGate m id = none) : lookupGate (m ++ m2) id = lookupGate m2 id := by
  induction m with
  | nil => simp [lookupGate]
  | cons e rest ih =>
    by_cases h1 : e.1 = id <;> simp_all [lookupGate]

theorem propagateOne_shape {m m2 : GateMap} {c : Conn}
    (h : propagateOne m c = some m2) :
    gateKeys m2 = gateKeys m ∧
    ∀ id, (lookupGate m2 id).map gshape = (lookupGate m id).map gshape := by
  unfold propagateOne at h
  split at h
  · exact absurd h (by simp)
  rename_i gFrom hf
  split at h
  · exact absurd h (by simp)
  rename_i v hv
  split at h
  · exact absurd h (by simp)
  rename_i gTo ht
  split at h
  · rename_i hlt
    obtain rfl : setGate m c.2.2.1 { gTo with inputs := gTo.inputs.set c.2.2.2 v } = m2 :=
      Option.some.inj h
    refine ⟨gateKeys_setGate _ _ _, fun id => ?_⟩
    rw [lookupGate_setGate]
    by_cases hid : id = c.2.2.1
    · subst hid
      simp [ht, gshape]
    · rw [if_neg hid]
  · exact absurd h (by simp)

theorem propagate_shape {cs : List Conn} :
    ∀ {m m2 : GateMap}, propagate m cs = some m2 →
    gateKeys m2 = gateKeys m ∧
    ∀ id, (lookupGate m2 id).map gshape = (lookupGate m id).map gshape := by
  induction cs with
  | nil =>
    intro m m2 h
    obtain rfl : m = m2 := Option.some.inj h
    exact ⟨rfl, fun _ => rfl⟩
  | cons c cs ih =>
    intro m m2 h
    unfold propagate at h
    split at h
    · exact absurd h (by simp)
    rename_i m1 h1
    obtain ⟨hk1, hs1⟩ := propagateOne_shape h1
    obtain ⟨hk2, hs2⟩ := ih h
    exact ⟨hk2.trans hk1, fun id => (hs2 id).trans (hs1 id)⟩

theorem evalGates_shape {m m2 : GateMap} (h : evalGates m = some m2) :
    gateKeys m2 = gateKeys m ∧
    ∀ id, (lookupGate m2 id).map (fun g => (g.inputs, g.kind, g.name)) =
      (lookupGate m id).map (fun g => (g.inputs, g.kind, g.name)) := by
  induction m generalizing m2 with
  | nil =>
    obtain rfl : ([] : GateMap) = m2 := Option.some.inj h
    exact ⟨rfl, fun _ => rfl⟩
  | cons e rest ih =>
    unfold evalGates at h
    split at h
    · exact absurd h (by simp)
    rename_i g hg
    split at h
    · exact absurd h (by simp)
    rename_i rest2 hrest
    obtain rfl : (e.1, g) :: rest2 = m2 := Option.some.inj h
    obtain ⟨hk, hs⟩ := ih hrest
    have hgsh : g.inputs = e.2.inputs ∧ g.kind = e.2.kind ∧ g.name = e.2.name := by
      unfold GateState.update at hg
      rcases hu : e.2.kind.update e.2.inputs e.2.outputs with _ | os
      · rw [hu] at hg; exact absurd hg (by simp)
      · rw [hu] at hg
        obtain rfl : { e.2 with outputs := os } = g := Option.some.inj (by simpa using hg)
        exact ⟨rfl, rfl, rfl⟩
    constructor
    · simpa [gateKeys] using hk
    · intro id
      by_cases hid : e.1 = id <;> simp_all [lookupGate]

/-- C10 (`frame_effect`): a successful tick mutates only the gate buffers:
the list of registered ids (even its stored order), each gate's update
function (kind) and name, the id counter and the entire connection table
(contents, length, order) are unchanged. -/
theorem simulate_frame {s s2 : Simulation} (h : s.simulate = some s2) :
    gateKeys s2.gates = gateKeys s.gates ∧
    (∀ id, (lookupGate s2.gates id).map (fun g => (g.kind, g.name)) =
      (lookupGate s.gates id).map (fun g => (g.kind, g.name))) ∧
    s2.counter = s.counter ∧
    s2.connections = s.connections := by
  unfold Simulation.simulate at h
  split at h
  · exact absurd h (by simp)
  rename_i m1 h1
  split at h
  · exact absurd h (by simp)
  rename_i m2 h2
  obtain rfl : { s with gates := m2 } = s2 := Option.some.inj h
  obtain ⟨hk1, hs1⟩ := propagate_shape h1
  obtain ⟨hk2, hs2⟩ := evalGates_shape h2
  refine ⟨hk2.trans hk1, fun id => ?_, rfl, rfl⟩
  have e1 := hs1 id
  have e2 := hs2 id
  cases hl : lookupGate s.gates id with
  | none =>
    rw [hl] at e1
    cases hl1 : lookupGate m1 id with
    | none =>
      rw [hl1] at e2
      cases hl2 : lookupGate m2 id with
      | none => simp [hl2, hl]
      | some g2 => rw [hl2] at e2; exact absurd e2 (by simp)
    | some g1 => rw [hl1] at e1; exact absurd e1 (by simp)
  | some g =>
    rw [hl] at e1
    cases hl1 : lookupGate m1 id with
    | none => rw [hl1] at e1; exact absurd e1 (by simp)
    | some g1 =>
      rw [hl1] at e1 e2
      cases hl2 : lookupGate m2 id with
      | none => rw [hl2] at e2; exact absurd e2 (by simp)
      | some g2 =>
        rw [hl2] at e2
        obtain ⟨hi2, hk2', hn2⟩ :
            g2.inputs = g1.inputs ∧ g2.kind = g1.kind ∧ g2.name = g1.name := by
          simpa [Prod.ext_iff] using e2
        obtain ⟨hil, ho, hk1', hn1⟩ : g1.inputs.length = g.inputs.length ∧
            g1.outputs = g.outputs ∧ g1.kind = g.kind ∧ g1.name = g.name := by
          simpa [gshape, Prod.ext_iff] using e1
        simp [hl2, hl, hk2', hn2, hk1', hn1]

/-- C10 witness: the frame conditions of a tick at the NOT-loop state. -/
theorem simulate_frame_witness :
    gateKeys notLoopOdd.gates = gateKeys notLoop.gates ∧
    (∀ id, (lookupGate notLoopOdd.gates id).map (fun g => (g.kind, g.name)) =
      (lookupGate notLoop.gates id).map (fun g => (g.kind, g.name))) ∧
    notLoopOdd.counter = notLoop.counter ∧
    notLoopOdd.connections = notLoop.connections :=
  simulate_frame (by decide)

theorem lookupGate_mem {m : GateMap} {id : Nat} {g : GateState}
    (h : lookupGate m id = some g) : (id, g) ∈ m := by
  induction m with
  | nil => simp [lookupGate] at h
  | cons e rest ih =>
    by_cases h1 : e.1 = id
    · simp only [lookupGate, if_pos h1] at h
      obtain rfl : e.2 = g := Option.some.inj h
      subst h1
      simp
    · simp only [lookupGate, if_neg h1] at h
      exact List.mem_cons_of_mem _ (ih h)

theorem mem_lookup_nodup {m : GateMap} {e : Nat × GateState}
    (hnd : (gateKeys m).Nodup) (h : e ∈ m) : lookupGate m e.1 = some e.2 := by
  induction m with
  | nil => simp at h
  | cons a rest ih =>
    rcases List.mem_cons.mp h with rfl | hmem
    · simp [lookupGate]
    · have hne : a.1 ≠ e.1 := by
        intro hcontra
        have : e.1 ∈ gateKeys rest := List.mem_map_of_mem Prod.fst hmem
        rw [← hcontra] at this
        exact (List.nodup_cons.mp (by simpa [gateKeys] using hnd)).1 this
      rw [lookupGate, if_neg hne]
      exact ih (List.nodup_cons.mp (by simpa [gateKeys] using hnd)).2 hmem

theorem update_output_length {k : GateKind} {i o o2 : List Bool}
    (h : k.update i o = some o2) : o2.length = k.outputArity := by
  cases k <;>
  rcases i with _ | ⟨a, _ | ⟨b, _ | ⟨c, _ | ⟨d, ti⟩⟩⟩⟩ <;>
  rcases o with _ | ⟨x, _ | ⟨y, to2⟩⟩ <;>
  simp_all [GateKind.update, GateKind.outputArity] <;>
  (rw [← h]; rfl)

theorem update_isSome {k : GateKind} {i o : List Bool}
    (hi : i.length = k.inputArity) (ho : o.length = k.outputArity) :
    (k.update i o).isSome := by
  cases k <;>
  rcases i with _ | ⟨a, _ | ⟨b, _ | ⟨c, _ | ⟨d, ti⟩⟩⟩⟩ <;>
  rcases o with _ | ⟨x, _ | ⟨y, to2⟩⟩ <;>
  simp_all [GateKind.update, GateKind.inputArity, GateKind.outputArity]

theorem lookup_none_of_keys_lt {m : GateMap} {n : Nat}
    (h : ∀ e ∈ m, e.1 < n) : lookupGate m n = none := by
  induction m with
  | nil => rfl
  | cons e rest ih =>
    have hne : e.1 ≠ n := Nat.ne_of_lt (h e (List.mem_cons_self e rest))
    rw [lookupGate, if_neg hne]
    exact ih fun a ha => h a (List.mem_cons_of_mem _ ha)

theorem lookupGate_insertGate_self (m : GateMap) (id : Nat) (v : GateState) :
    lookupGate (insertGate m id v) id = some v := by
  unfold insertGate
  by_cases h : (lookupGate m id).isSome
  · obtain ⟨g, hg⟩ := Option.isSome_iff_exists.mp h
    rw [if_pos h, lookupGate_setGate, if_pos rfl, hg]
    rfl
  · rw [if_neg h,
      lookupGate_append_right _ _ _ (Option.not_isSome_iff_eq_none.mp h)]
    simp [lookupGate]

theorem wf_of_shape {m m2 : GateMap} {n : Nat}
    (hk : gateKeys m2 = gateKeys m)
    (hs : ∀ id, (lookupGate m2 id).map gshape = (lookupGate m id).map gshape)
    (hw : GateMapWF m n) : GateMapWF m2 n := by
  obtain ⟨hent, hnd⟩ := hw
  refine ⟨fun e2 he2 => ?_, hk ▸ hnd⟩
  have hl2 : lookupGate m2 e2.1 = some e2.2 := mem_lookup_nodup (hk ▸ hnd) he2
  have := hs e2.1
  rw [hl2] at this
  cases hl : lookupGate m e2.1 with
  | none => rw [hl] at this; exact absurd this (by simp)
  | some g =>
    rw [hl] at this
    obtain ⟨hil, ho, hkind, hname⟩ : e2.2.inputs.length = g.inputs.length ∧
        e2.2.outputs = g.outputs ∧ e2.2.kind = g.kind ∧ e2.2.name = g.name := by
      simpa [gshape, Prod.ext_iff] using this
    obtain ⟨w1, w2, w3, w4⟩ := hent (e2.1, g) (lookupGate_mem hl)
    exact ⟨by rw [hil, hkind]; exact w1, by rw [ho, hkind]; exact w2,
      by rw [hname, hkind]; exact w3, w4⟩

theorem evalGates_mem {m m2 : GateMap} (h : evalGates m = some m2) :
    ∀ a ∈ m2, ∃ e ∈ m, a.1 = e.1 ∧ a.2.inputs = e.2.inputs ∧
      a.2.kind = e.2.kind ∧ a.2.name = e.2.name ∧
      a.2.outputs.length = a.2.kind.outputArity := by
  induction m generalizing m2 with
  | nil =>
    obtain rfl : ([] : GateMap) = m2 := Option.some.inj h
    simp
  | cons e rest ih =>
    unfold evalGates at h
    split at h
    · exact absurd h (by simp)
    rename_i g hg
    split at h
    · exact absurd h (by simp)
    rename_i rest2 hrest
    obtain rfl : (e.1, g) :: rest2 = m2 := Option.some.inj h
    intro a ha
    rcases List.mem_cons.mp ha with rfl | hmem
    · unfold GateState.update at hg
      cases hu : e.2.kind.update e.2.inputs e.2.outputs with
      | none => rw [hu] at hg; exact absurd hg (by simp)
      | some os =>
        rw [hu] at hg
        obtain rfl : { e.2 with outputs := os } = g :=
          Option.some.inj (by simpa using hg)
        exact ⟨e, List.mem_cons_self e rest, rfl, rfl, rfl, rfl,
          update_output_length hu⟩
    · obtain ⟨e', he', hprops⟩ := ih hrest a hmem
      exact ⟨e', List.mem_cons_of_mem _ he', hprops⟩

theorem evalGates_wf {m m2 : GateMap} {n : Nat} (h : evalGates m = some m2)
    (hw : GateMapWF m n) : GateMapWF m2 n := by
  obtain ⟨hkeys, _⟩ := evalGates_shape h
  refine ⟨fun a ha => ?_, hkeys ▸ hw.2⟩
  obtain ⟨e, he, h1, h2, h3, h4, h5⟩ := evalGates_mem h a ha
  obtain ⟨w1, w2, w3, w4⟩ := hw.1 e he
  exact ⟨by rw [h2, h3]; exact w1, h5, by rw [h4, h3]; exact w3, h1 ▸ w4⟩

theorem reachable_wf {s : Simulation} (h : Reachable s) : SimWF s := by
  induction h with
  | new => exact ⟨fun e he => absurd he (List.not_mem_nil e), List.nodup_nil⟩
  | add_gate k _ ih =>
    obtain ⟨hent, hnd⟩ := ih
    rename_i s _
    have hfresh : lookupGate s.gates s.counter = none :=
      lookup_none_of_keys_lt fun e he => (hent e he).2.2.2
    have hins : insertGate s.gates s.counter
        { inputs := List.replicate k.inputArity false
          outputs := List.replicate k.outputArity false
          kind := k, name := k.gateName } =
        s.gates ++ [(s.counter,
          { inputs := List.replicate k.inputArity false
            outputs := List.replicate k.outputArity false
            kind := k, name := k.gateName })] := by
      unfold insertGate
      rw [hfresh]
      rfl
    constructor
    · intro e he
      rw [Simulation.add_gate] at he
      simp only [hins] at he
      rcases List.mem_append.mp he with hm | hm
      · obtain ⟨w1, w2, w3, w4⟩ := hent e hm
        exact ⟨w1, w2, w3, Nat.lt_succ_of_lt w4⟩
      · obtain rfl : e = (s.counter,
            { inputs := List.replicate k.inputArity false
              outputs := List.replicate k.outputArity false
              kind := k, name := k.gateName }) := List.mem_singleton.mp hm
        exact ⟨by simp, by simp, rfl, Nat.lt_succ_self _⟩
    · rw [Simulation.add_gate]
      simp only [hins, gateKeys, List.map_append]
      rw [List.nodup_append]
      refine ⟨hnd, List.nodup_singleton _, fun a ha hb => ?_⟩
      have ha2 : a = s.counter := by simpa using hb
      obtain ⟨e, he, hfe⟩ := List.mem_map.mp ha
      have hlt := (hent e he).2.2.2
      rw [hfe, ha2] at hlt
      exact absurd hlt (Nat.lt_irrefl _)
  | add_connection frm outSlot dst inSlot _ ih => exact ih
  | tick _ hsim ih =>
    rename_i s s2 _
    unfold Simulation.simulate at hsim
    split at hsim
    · exact absurd hsim (by simp)
    rename_i m1 h1
    split at hsim
    · exact absurd hsim (by simp)
    rename_i m2 h2
    obtain rfl : { s with gates := m2 } = s2 := Option.some.inj hsim
    obtain ⟨hk1, hs1⟩ := propagate_shape h1
    exact evalGates_wf h2 (wf_of_shape hk1 hs1 ih)

/-- C7 (`invariants`): gate registration allocates an instance whose input
and output buffers are all-`false` lists of lengths exactly the kind's
arities, stored under the fresh id `counter` (which is then incremented);
and on every state reachable through the public operations the invariant
holds: every stored gate's buffer lengths equal its kind's arities, its
name is the kind's display name, and all ids are distinct and strictly
below the counter — so a registration's id differs from every id handed
out earlier and ids are never reused. -/
theorem register_gate_spec :
    (∀ (s : Simulation) (k : GateKind),
      (s.add_gate k).counter = s.counter + 1 ∧
      lookupGate (s.add_gate k).gates s.counter = some
        { inputs := List.replicate k.inputArity false
          outputs := List.replicate k.outputArity false
          kind := k
          name := k.gateName }) ∧
    (∀ s : Simulation, Reachable s → SimWF s) :=
  ⟨fun s _k => ⟨rfl, lookupGate_insertGate_self s.gates s.counter _⟩,
   fun _ h => reachable_wf h⟩

/-- C7 witness: the registration facts at a concrete registration, and
the invariant at the (reachable) fresh simulation. -/
theorem register_gate_spec_witness :
    ((Simulation.new.add_gate .AND).counter = Simulation.new.counter + 1 ∧
      lookupGate (Simulation.new.add_gate .AND).gates Simulation.new.counter =
        some { inputs := List.replicate GateKind.AND.inputArity false
               outputs := List.replicate GateKind.AND.outputArity false
               kind := .AND
               name := GateKind.AND.gateName }) ∧
    SimWF Simulation.new :=
  ⟨register_gate_spec.1 Simulation.new .AND,
   register_gate_spec.2 Simulation.new Reachable.new⟩

theorem shape_lookup {m m2 : GateMap}
    (hs : ∀ id, (lookupGate m2 id).map gshape = (lookupGate m id).map gshape)
    {id : Nat} {g : GateState} (h : lookupGate m id = some g) :
    ∃ g2, lookupGate m2 id = some g2 ∧ gshape g2 = gshape g := by
  have := hs id
  rw [h] at this
  cases h2 : lookupGate m2 id with
  | none => rw [h2] at this; exact absurd this (by simp)
  | some g2 => rw [h2] at this; exact ⟨g2, rfl, by simpa using this⟩

theorem connValid_of_shape {m m2 : GateMap} {c : Conn}
    (hs : ∀ id, (lookupGate m2 id).map gshape = (lookupGate m id).map gshape)
    (hv : connValid m c) : connValid m2 c := by
  obtain ⟨⟨gF, hF, hoF⟩, gT, hT, hiT⟩ := hv
  obtain ⟨gF2, hF2, hsF⟩ := shape_lookup hs hF
  obtain ⟨gT2, hT2, hsT⟩ := shape_lookup hs hT
  obtain ⟨hFl, hFo, _, _⟩ : gF2.inputs.length = gF.inputs.length ∧
      gF2.outputs = gF.outputs ∧ gF2.kind = gF.kind ∧ gF2.name = gF.name := by
    simpa [gshape, Prod.ext_iff] using hsF
  obtain ⟨hTl, hTo, _, _⟩ : gT2.inputs.length = gT.inputs.length ∧
      gT2.outputs = gT.outputs ∧ gT2.kind = gT.kind ∧ gT2.name = gT.name := by
    simpa [gshape, Prod.ext_iff] using hsT
  exact ⟨⟨gF2, hF2, by rw [hFo]; exact hoF⟩, gT2, hT2, by rw [hTl]; exact hiT⟩

theorem propagateOne_isSome {m : GateMap} {c : Conn} (hv : connValid m c) :
    ∃ m2, propagateOne m c = some m2 := by
  obtain ⟨⟨gF, hF, hoF⟩, gT, hT, hiT⟩ := hv
  unfold propagateOne
  cases hg : gF.outputs.get? c.2.1 with
  | none => exact absurd (List.get?_eq_none.mp hg) (Nat.not_le_of_lt hoF)
  | some v =>
    simp only [hF, hg, hT]
    rw [if_pos hiT]
    exact ⟨_, rfl⟩

theorem propagate_isSome {cs : List Conn} :
    ∀ {m : GateMap}, (∀ c ∈ cs, connValid m c) →
    ∃ m2, propagate m cs = some m2 := by
  induction cs with
  | nil => exact fun {m} _ => ⟨m, rfl⟩
  | cons c cs ih =>
    intro m hv
    obtain ⟨m1, h1⟩ := propagateOne_isSome (hv c (List.mem_cons_self c cs))
    have hsh := (propagateOne_shape h1).2
    have hv2 : ∀ c2 ∈ cs, connValid m1 c2 := fun c2 hc2 =>
      connValid_of_shape hsh (hv c2 (List.mem_cons_of_mem _ hc2))
    obtain ⟨m2, h2⟩ := ih hv2
    refine ⟨m2, ?_⟩
    unfold propagate
    rw [h1]
    exact h2

theorem evalGates_isSome {n : Nat} :
    ∀ {m : GateMap}, GateMapWF m n → ∃ m2, evalGates m = some m2 := by
  intro m
  induction m with
  | nil => exact fun _ => ⟨[], rfl⟩
  | cons e rest ih =>
    intro hw
    obtain ⟨w1, w2, _, _⟩ := hw.1 e (List.mem_cons_self e rest)
    have hwrest : GateMapWF rest n :=
      ⟨fun a ha => hw.1 a (List.mem_cons_of_mem _ ha),
       (List.nodup_cons.mp (by simpa [gateKeys] using hw.2)).2⟩
    obtain ⟨os, hos⟩ := Option.isSome_iff_exists.mp (update_isSome w1 w2)
    obtain ⟨rest2, hrest2⟩ := ih hwrest
    refine ⟨(e.1, { e.2 with outputs := os }) :: rest2, ?_⟩
    unfold evalGates GateState.update
    rw [hos]
    simp only [Option.map_some']
    rw [hrest2]

/-- C6 counterexample: the state obtained by `add_connection(0,0,0,0)` on a
fresh simulation is reachable through the public operations, and executing
a tick on it panics (`unwrap()` of a missing gate id in the propagate
loop, modelled as `none`). -/
theorem simulate_panics_on_reachable_state :
    Reachable (Simulation.new.add_connection 0 0 0 0) ∧
    (Simulation.new.add_connection 0 0 0 0).simulate = none :=
  ⟨Reachable.add_connection 0 0 0 0 Reachable.new, rfl⟩

/-- C6 (amended): on every reachable state all of whose connections are
valid (both endpoint gates registered and both slot indices within the
endpoint buffer bounds), a tick is total: every gate-map lookup of the
propagate phase succeeds, every slot index is in bounds, and the evaluate
phase succeeds, so `simulate` returns a state rather than panicking.
(Because `add_connection` never validates, reachability alone does not
guarantee this — see the counterexample.) -/
theorem simulate_total_on_valid {s : Simulation} (hr : Reachable s)
    (hv : ∀ c ∈ s.connections, connValid s.gates c) :
    (s.simulate).isSome := by
  have hw := reachable_wf hr
  obtain ⟨m1, h1⟩ := propagate_isSome hv
  have hw1 : GateMapWF m1 s.counter :=
    wf_of_shape (propagate_shape h1).1 (propagate_shape h1).2 hw
  obtain ⟨m2, h2⟩ := evalGates_isSome hw1
  unfold Simulation.simulate
  simp [h1, h2]

/-- C6 witness: the NOT-loop is reachable, its single connection is valid,
and the theorem yields that its tick succeeds. -/
theorem simulate_total_on_valid_witness : (notLoop.simulate).isSome :=
  simulate_total_on_valid
    (Reachable.add_connection 0 0 0 0 (Reachable.add_gate .NOT Reachable.new))
    (fun c hc => by
      obtain rfl : c = (0, 0, 0, 0) := List.mem_singleton.mp hc
      exact ⟨⟨⟨[false], [false], .NOT, "NOT"⟩, by decide, by decide⟩,
        ⟨[false], [false], .NOT, "NOT"⟩, by decide, by decide⟩)

theorem setGate_comm {x y : Nat} (h : x ≠ y) (vx vy : GateState) :
    ∀ m : GateMap, setGate (setGate m x vx) y vy = setGate (setGate m y vy) x vx := by
  intro m
  induction m with
  | nil => rfl
  | cons e rest ih =>
    by_cases hx : e.1 = x <;> by_cases hy : e.1 = y <;>
      simp_all [setGate]

theorem optBind_assoc {α β γ : Type} (o : Option α) (f : α → Option β)
    (g : β → Option γ) : (o.bind f).bind g = o.bind fun a => (f a).bind g := by
  cases o <;> rfl

theorem evalStep_comm {x y : Nat} (hxy : x ≠ y) (m : GateMap) :
    (evalStep m x).bind (fun m2 => evalStep m2 y) =
    (evalStep m y).bind (fun m2 => evalStep m2 x) := by
  have hyx : y ≠ x := fun hh => hxy hh.symm
  cases hx : lookupGate m x with
  | none =>
    cases hy : lookupGate m y with
    | none => simp [evalStep, hx, hy]
    | some gy =>
      cases hgy : gy.update with
      | none => simp [evalStep, hx, hy, hgy]
      | some gy2 =>
        simp [evalStep, hx, hy, hgy, lookupGate_setGate, hxy]
  | some gx =>
    cases hy : lookupGate m y with
    | none =>
      cases hgx : gx.update with
      | none => simp [evalStep, hx, hy, hgx]
      | some gx2 => simp [evalStep, hx, hy, hgx, lookupGate_setGate, hyx]
    | some gy =>
      cases hgx : gx.update with
      | none =>
        cases hgy : gy.update with
        | none => simp [evalStep, hx, hy, hgx, hgy]
        | some gy2 => simp [evalStep, hx, hy, hgx, hgy, lookupGate_setGate, hxy]
      | some gx2 =>
        cases hgy : gy.update with
        | none => simp [evalStep, hx, hy, hgx, hgy, lookupGate_setGate, hyx]
        | some gy2 =>
          simp [evalStep, hx, hy, hgx, hgy, lookupGate_setGate, hxy, hyx,
            setGate_comm hxy gx2 gy2]

theorem evalGatesInOrder_perm {o1 o2 : List Nat} (hp : o1.Perm o2) :
    o1.Nodup → ∀ m, evalGatesInOrder m o1 = evalGatesInOrder m o2 := by
  induction hp with
  | nil => exact fun _ _ => rfl
  | cons a p ih =>
    intro hnd m
    unfold evalGatesInOrder
    cases ha : evalStep m a with
    | none => rfl
    | some m2 => exact ih (List.nodup_cons.mp hnd).2 m2
  | swap a b l =>
    intro hnd m
    have hba : b ≠ a := (List.nodup_cons.mp hnd).1 ∘ fun hh =>
      hh ▸ List.mem_cons_self a l
    show (evalStep m b).bind (fun m2 =>
        (evalStep m2 a).bind fun m3 => evalGatesInOrder m3 l) =
      (evalStep m a).bind (fun m2 =>
        (evalStep m2 b).bind fun m3 => evalGatesInOrder m3 l)
    rw [← optBind_assoc, ← optBind_assoc, evalStep_comm hba m]
  | trans p1 p2 ih1 ih2 =>
    intro hnd m
    exact (ih1 hnd m).trans (ih2 (p1.nodup_iff.mp hnd) m)

theorem evalGatesInOrder_cons (a : Nat × GateState) {order : List Nat}
    (h : a.1 ∉ order) : ∀ rest : GateMap, evalGatesInOrder (a :: rest) order =
      (evalGatesInOrder rest order).map (a :: ·) := by
  induction order with
  | nil => exact fun _ => rfl
  | cons id order2 ih =>
    intro rest
    have hne : a.1 ≠ id := fun hh => h (hh ▸ List.mem_cons_self id order2)
    have hnotin : a.1 ∉ order2 := fun hh => h (List.mem_cons_of_mem _ hh)
    have hstep : evalStep (a :: rest) id =
        (evalStep rest id).map (fun m2 => a :: m2) := by
      unfold evalStep
      rw [lookupGate, if_neg hne]
      cases hl : lookupGate rest id with
      | none => rfl
      | some g =>
        show Option.map (fun g2 => setGate (a :: rest) id g2) g.update =
          Option.map (fun m2 => a :: m2)
            (Option.map (fun g2 => setGate rest id g2) g.update)
        cases hu : g.update with
        | none => rfl
        | some g2 =>
          simp only [Option.map_some', Option.some.injEq]
          rw [setGate]
          simp [hne]
    show (evalStep (a :: rest) id).bind
        (fun m2 => evalGatesInOrder m2 order2) =
      ((evalStep rest id).bind fun m2 => evalGatesInOrder m2 order2).map (a :: ·)
    rw [hstep]
    cases hl : evalStep rest id with
    | none => rfl
    | some m2 =>
      show evalGatesInOrder (a :: m2) order2 =
        (evalGatesInOrder m2 order2).map (a :: ·)
      exact ih hnotin m2

theorem evalGatesInOrder_keys :
    ∀ m : GateMap, (gateKeys m).Nodup →
      evalGatesInOrder m (gateKeys m) = evalGates m := by
  intro m
  induction m with
  | nil => exact fun _ => rfl
  | cons e rest ih =>
    intro hnd
    have hnotin : e.1 ∉ gateKeys rest :=
      (List.nodup_cons.mp (by simpa [gateKeys] using hnd)).1
    have hndrest : (gateKeys rest).Nodup :=
      (List.nodup_cons.mp (by simpa [gateKeys] using hnd)).2
    have hstep : evalStep (e :: rest) e.1 =
        (e.2.update).map fun g2 => setGate (e :: rest) e.1 g2 := by
      unfold evalStep
      rw [lookupGate, if_pos rfl]
    show (evalStep (e :: rest) e.1).bind
        (fun m2 => evalGatesInOrder m2 (gateKeys rest)) = evalGates (e :: rest)
    rw [hstep]
    cases hu : e.2.update with
    | none =>
      show none = evalGates (e :: rest)
      conv_rhs => rw [evalGates]
      rw [hu]
    | some g2 =>
      have hset : setGate (e :: rest) e.1 g2 = (e.1, g2) :: rest := by
        rw [setGate, if_pos rfl]
      show evalGatesInOrder (setGate (e :: rest) e.1 g2) (gateKeys rest) =
        evalGates (e :: rest)
      rw [hset, evalGatesInOrder_cons (e.1, g2) hnotin, ih hndrest]
      have hev : evalGates (e :: rest) =
          match evalGates rest with
          | none => none
          | some rest2 => some ((e.1, g2) :: rest2) := by
        conv_lhs => rw [evalGates]
        rw [hu]
      rw [hev]
      cases her : evalGates rest with
      | none => rfl
      | some rest2 => rfl

theorem optOutput_of_shape {m m2 : GateMap}
    (hs : ∀ id, (lookupGate m2 id).map gshape = (lookupGate m id).map gshape)
    (id slot : Nat) : optOutput m2 id slot = optOutput m id slot := by
  unfold optOutput
  cases hl : lookupGate m id with
  | none =>
    have := hs id
    rw [hl] at this
    cases hl2 : lookupGate m2 id with
    | none => rfl
    | some g2 => rw [hl2] at this; exact absurd this (by simp)
  | some g =>
    obtain ⟨g2, hl2, hsh⟩ := shape_lookup hs hl
    rw [hl2]
    obtain ⟨_, ho, _, _⟩ : g2.inputs.length = g.inputs.length ∧
        g2.outputs = g.outputs ∧ g2.kind = g.kind ∧ g2.name = g.name := by
      simpa [gshape, Prod.ext_iff] using hsh
    simp [ho]

theorem propagateOne_optInput_target {m m2 : GateMap} {frm outSlot dst inSlot : Nat}
    (h : propagateOne m (frm, outSlot, dst, inSlot) = some m2) :
    optInput m2 dst inSlot = optOutput m frm outSlot := by
  unfold propagateOne at h
  split at h
  · exact absurd h (by simp)
  rename_i gFrom hf
  split at h
  · exact absurd h (by simp)
  rename_i v hv
  split at h
  · exact absurd h (by simp)
  rename_i gTo ht
  split at h
  · rename_i hlt
    obtain rfl := Option.some.inj h
    unfold optInput optOutput
    rw [lookupGate_setGate, if_pos rfl, ht, hf]
    show (gTo.inputs.set inSlot v).get? inSlot = gFrom.outputs.get? outSlot
    rw [List.get?_set_eq_of_lt _ hlt, hv]
  · exact absurd h (by simp)

theorem propagateOne_optInput_other {m m2 : GateMap} {c : Conn} {dst inSlot : Nat}
    (h : propagateOne m c = some m2) (hne : ¬(c.2.2.1 = dst ∧ c.2.2.2 = inSlot)) :
    optInput m2 dst inSlot = optInput m dst inSlot := by
  unfold propagateOne at h
  split at h
  · exact absurd h (by simp)
  rename_i gFrom hf
  split at h
  · exact absurd h (by simp)
  rename_i v hv
  split at h
  · exact absurd h (by simp)
  rename_i gTo ht
  split at h
  · rename_i hlt
    obtain rfl := Option.some.inj h
    unfold optInput
    rw [lookupGate_setGate]
    by_cases hd : dst = c.2.2.1
    · subst hd
      have hslot : c.2.2.2 ≠ inSlot := fun hh => hne ⟨rfl, hh⟩
      rw [if_pos rfl, ht]
      show (gTo.inputs.set c.2.2.2 v).get? inSlot = gTo.inputs.get? inSlot
      exact List.get?_set_ne v gTo.inputs hslot
    · rw [if_neg hd]
  · exact absurd h (by simp)

theorem propagate_optInput_noTarget {dst inSlot : Nat} :
    ∀ {cs : List Conn} {m m2 : GateMap}, propagate m cs = some m2 →
    (∀ c ∈ cs, ¬(c.2.2.1 = dst ∧ c.2.2.2 = inSlot)) →
    optInput m2 dst inSlot = optInput m dst inSlot := by
  intro cs
  induction cs with
  | nil =>
    intro m m2 h _
    obtain rfl := Option.some.inj h
    rfl
  | cons c cs ih =>
    intro m m2 h hno
    unfold propagate at h
    split at h
    · exact absurd h (by simp)
    rename_i m1 h1
    exact (ih h (fun c2 hc2 => hno c2 (List.mem_cons_of_mem _ hc2))).trans
      (propagateOne_optInput_other h1 (hno c (List.mem_cons_self c cs)))

theorem propagate_append {l1 l2 : List Conn} :
    ∀ {m m2 : GateMap}, propagate m (l1 ++ l2) = some m2 →
    ∃ mm, propagate m l1 = some mm ∧ propagate mm l2 = some m2 := by
  induction l1 with
  | nil => exact fun h => ⟨_, rfl, h⟩
  | cons c l1 ih =>
    intro m m2 h
    rw [List.cons_append] at h
    unfold propagate at h
    split at h
    · exact absurd h (by simp)
    rename_i m1 h1
    obtain ⟨mm, hl, hr⟩ := ih h
    refine ⟨mm, ?_, hr⟩
    show propagate m (c :: l1) = some mm
    unfold propagate
    simp only [h1]
    exact hl

/-- C3 (`security_hyperproperties`): determinism of the tick.
First part: the evaluate phase, executed in any iteration order of the
gate map (Rust leaves `HashMap` iteration order unspecified), produces the
same result as the reference order, so the tick is a deterministic
function of the simulation state and running it N times from a fixed
state always yields the same final state.  Second part: after the
propagate phase, an input slot targeted by a connection holds exactly the
pre-tick source-output value of the *last* connection in the table's
declared (insertion) iteration order that targets it. -/
theorem tick_deterministic_lastWriteWins :
    (∀ (m : GateMap) (order : List Nat), (gateKeys m).Nodup →
      order.Perm (gateKeys m) → evalGatesInOrder m order = evalGates m) ∧
    (∀ (m m2 : GateMap) (pre post : List Conn) (frm outSlot dst inSlot : Nat),
      propagate m (pre ++ (frm, outSlot, dst, inSlot) :: post) = some m2 →
      (∀ c ∈ post, ¬(c.2.2.1 = dst ∧ c.2.2.2 = inSlot)) →
      optInput m2 dst inSlot = optOutput m frm outSlot) := by
  constructor
  · intro m order hnd hperm
    exact (evalGatesInOrder_perm hperm (hperm.symm.nodup_iff.mp hnd) m).trans
      (evalGatesInOrder_keys m hnd)
  · intro m m2 pre post frm outSlot dst inSlot h hno
    obtain ⟨mA, hA, hrest⟩ := propagate_append h
    unfold propagate at hrest
    split at hrest
    · exact absurd hrest (by simp)
    rename_i mB hB
    calc optInput m2 dst inSlot
        = optInput mB dst inSlot := propagate_optInput_noTarget hrest hno
      _ = optOutput mA frm outSlot := propagateOne_optInput_target hB
      _ = optOutput m frm outSlot := optOutput_of_shape (propagate_shape hA).2 _ _

/-- C3 witness: evaluating the two-gate map in the reversed iteration
order gives the reference result, and a single connection writes the
source's pre-tick output into its destination slot. -/
theorem tick_deterministic_witness :
    evalGatesInOrder twoNots [1, 0] = evalGates twoNots ∧
    optInput twoNots 0 0 = optOutput twoNots 1 0 :=
  ⟨tick_deterministic_lastWriteWins.1 twoNots [1, 0] (by decide) (by decide),
   tick_deterministic_lastWriteWins.2 twoNots twoNots [] [] 1 0 0 0 (by decide)
     (fun c hc => absurd hc (List.not_mem_nil c))⟩

/-- C9 (`numerical`): each frame computes
`ticks_due = elapsed / period + remainder`; when `ticks_due ≥ 1` it runs
`floor(ticks_due)` ticks and carries the fractional part (so no tick is
dropped: executed ticks plus carried remainder exactly account for
`ticks_due`, and the carry lies in `[0, 1)`); otherwise it runs zero
ticks and accumulates.  In particular at 10 Hz, after 1.05 s elapsed with
zero prior remainder, exactly 10 ticks execute and the carried remainder
is exactly 1/2 in the rational model of the float arithmetic. -/
theorem clock_conversion (e p r : ℚ) (h1 : 1 ≤ e / p + r) :
    (frameTicks e p r).1 = (⌊e / p + r⌋).toNat ∧
    ((frameTicks e p r).1 : ℚ) + (frameTicks e p r).2.1 = e / p + r ∧
    0 ≤ (frameTicks e p r).2.1 ∧
    (frameTicks e p r).2.1 < 1 ∧
    (∀ e2 p2 r2 : ℚ, e2 / p2 + r2 < 1 → frameTicks e2 p2 r2 = (0, r2, false)) ∧
    frameTicks (21 / 20) (tickPeriod 10) 0 = (10, 1 / 2, true) := by
  have hone : (1 : ℤ) ≤ ⌊e / p + r⌋ := Int.le_floor.mpr (by exact_mod_cast h1)
  have hpos : (0 : ℤ) ≤ ⌊e / p + r⌋ := by omega
  unfold frameTicks
  rw [if_pos h1]
  refine ⟨rfl, ?_, ?_, ?_, ?_, ?_⟩
  · rw [show ((⌊e / p + r⌋.toNat : ℕ) : ℚ) = ((⌊e / p + r⌋ : ℤ) : ℚ) by
      exact_mod_cast Int.toNat_of_nonneg hpos]
    ring
  · exact sub_nonneg.mpr (Int.floor_le _)
  · have := Int.lt_floor_add_one (e / p + r)
    linarith
  · intro e2 p2 r2 h2
    rw [if_neg (not_le.mpr h2)]
  · have harith : (21 : ℚ) / 20 / tickPeriod 10 + 0 = 21 / 2 := by
      norm_num [tickPeriod]
    have hfl : ⌊(21 : ℚ) / 2⌋ = 10 := by
      norm_num [Int.floor_eq_iff]
    rw [harith, if_pos (by norm_num), hfl]
    norm_num
    decide

/-- C9 witness: the theorem applied at 10 Hz, 1.05 s elapsed, zero
remainder. -/
theorem clock_conversion_witness :
    frameTicks (21 / 20) (tickPeriod 10) 0 = (10, 1 / 2, true) :=
  (clock_conversion (21 / 20) (tickPeriod 10) 0
    (by norm_num [tickPeriod])).2.2.2.2.2
